import Mathlib

/-!
Verification of the `prc-rs` binary param-file disassembler (`src/disasm.rs`)
against its natural-language specification.

The decoder is shallowly embedded: the byte buffer is a `List Nat` of bytes,
the seekable cursor is an explicit position `Nat` threaded through every
operation, and every fallible step returns a `Res` value distinguishing a
successfully decoded value, an error returned to the caller
(`std::io::Error` in the source), and a process abort (a Rust panic coming
from `.unwrap()` or an out-of-bounds `Vec` index).  Recursive descent is
bounded by an explicit fuel parameter; exhausting fuel models unbounded
recursion (a stack overflow abort in the source), so it is rendered as
`panicked` as well.  All 32-bit arithmetic that can wrap in the source is
taken modulo `2 ^ 32`.
-/

namespace Prc

/-- The kinds of error the source returns as `Err` values: end-of-buffer on a
`?`-propagated read, the `Invalid file magic` error, the
`param file does not contain a root` error, and the
`encountered invalid param number at position` error (which carries the
position of the offending tag byte). -/
inductive DErr where
  | eof : DErr
  | invalidMagic : DErr
  | missingRoot : DErr
  | unknownTag : Nat → DErr
deriving DecidableEq

/-- Outcome of a decoding step: a value, a returned error, or a process
abort (Rust panic / stack exhaustion). -/
inductive Res (α : Type) where
  | ok : α → Res α
  | err : DErr → Res α
  | panicked : Res α

/-- Modelled from the spec: the Value Tree tagged union of §3 (the defining
file `param.rs` is not under `src/`).  Strings are kept as the list of the
character code points pushed by the source's byte-to-char loop, floats as
their raw 32-bit little-endian bit pattern, and hashes as the raw 64-bit
value read from the hash table. -/
inductive ParamKind where
  | bool : Bool → ParamKind
  | i8 : Int → ParamKind
  | u8 : Nat → ParamKind
  | i16 : Int → ParamKind
  | u16 : Nat → ParamKind
  | i32 : Int → ParamKind
  | u32 : Nat → ParamKind
  | float : Nat → ParamKind
  | hash : Nat → ParamKind
  | str : List Nat → ParamKind
  | list : List ParamKind → ParamKind
  | strct : List (Nat × ParamKind) → ParamKind

/-- The decode context `FileData` of the source: section boundaries, the
loaded hash table, and the reference-table cache.  The source's
`HashMap<u32, RefTable>` is modelled as an association list with
insert-at-front / first-match-lookup semantics. -/
structure FileData where
  ref_start : Nat
  param_start : Nat
  hash_table : List Nat
  ref_tables : List (Nat × List (Nat × Nat))

/-- Lookup in the association-list model of the reference-table cache. -/
def lookupRT : List (Nat × List (Nat × Nat)) → Nat → Option (List (Nat × Nat))
  | [], _ => none
  | (k, v) :: rest, r => if r = k then some v else lookupRT rest r

/-- `read_u8`: one byte at `pos`, `none` past the end of the buffer. -/
def readU8 (buf : List Nat) (pos : Nat) : Option Nat :=
  buf.get? pos

/-- `read_u16::<LittleEndian>`. -/
def readU16 (buf : List Nat) (pos : Nat) : Option Nat :=
  match readU8 buf pos, readU8 buf (pos + 1) with
  | some a, some b => some (a + 256 * b)
  | _, _ => none

/-- `read_u32::<LittleEndian>`. -/
def readU32 (buf : List Nat) (pos : Nat) : Option Nat :=
  match readU8 buf pos, readU8 buf (pos + 1), readU8 buf (pos + 2),
      readU8 buf (pos + 3) with
  | some a, some b, some c, some d =>
      some (a + 256 * b + 65536 * c + 16777216 * d)
  | _, _, _, _ => none

/-- `read_hash40::<LittleEndian>`.  Modelled from the spec: the hash type is
an opaque 8-byte little-endian value read in sequence (§4.2); its crate is
external to `src/`. -/
def readU64 (buf : List Nat) (pos : Nat) : Option Nat :=
  match readU32 buf pos, readU32 buf (pos + 4) with
  | some lo, some hi => some (lo + 4294967296 * hi)
  | _, _ => none

/-- Reinterpret an unsigned byte as `i8`. -/
def asI8 (v : Nat) : Int :=
  if v < 128 then (v : Int) else (v : Int) - 256

/-- Reinterpret an unsigned 16-bit value as `i16`. -/
def asI16 (v : Nat) : Int :=
  if v < 32768 then (v : Int) else (v : Int) - 65536

/-- Reinterpret an unsigned 32-bit value as `i32`. -/
def asI32 (v : Nat) : Int :=
  if v < 2147483648 then (v : Int) else (v : Int) - 4294967296

/-- The index computed by tag 9: the 4-byte value is read as `i32` and cast
`as usize` (64-bit), which sign-extends negative values. -/
def hashIndexOf (raw : Nat) : Nat :=
  if raw < 2147483648 then raw else 2 ^ 64 - 2 ^ 32 + raw

/-- The string loop of tag 10, with explicit fuel.  `readStrLoop` below
instantiates the fuel with the number of bytes remaining, which is an upper
bound on the number of iterations, so the `0`-fuel case (which coincides
with the read-past-end case) is never reached with bytes remaining. -/
def strLoopAux : Nat → List Nat → Nat → Res (List Nat × Nat)
  | 0, _, _ => .err .eof
  | fuel + 1, buf, pos =>
    match readU8 buf pos with
    | none => .err .eof
    | some b =>
      if b ≠ 0 then
        match strLoopAux fuel buf (pos + 1) with
        | .ok (s, p) => .ok (b :: s, p)
        | .err e => .err e
        | .panicked => .panicked
      else .ok ([], pos + 1)

/-- Tag 10's loop: read bytes, pushing each nonzero byte as a character,
until a zero byte (consumed, excluded) or end of buffer (a returned read
error).  Returns the characters and the final cursor position. -/
def readStrLoop (buf : List Nat) (pos : Nat) : Res (List Nat × Nat) :=
  strLoopAux (buf.length - pos) buf pos

/-- `(0..size).map(|_| cursor.read_u32()).collect::<Result<Vec<_>,_>>()`:
`n` consecutive 4-byte reads, failing as a whole if any read fails. -/
def readU32s (buf : List Nat) (pos : Nat) : Nat → Option (List Nat)
  | 0 => some []
  | n + 1 =>
    match readU32 buf pos with
    | some v =>
      match readU32s buf (pos + 4) n with
      | some vs => some (v :: vs)
      | none => none
    | none => none

/-- The reference-table pair reads of the tag-12 branch: `n` pairs of 4-byte
values.  In the source each of these reads is unwrapped, so a `none` here is
turned into a panic by the caller. -/
def readPairs (buf : List Nat) (pos : Nat) : Nat → Option (List (Nat × Nat))
  | 0 => some []
  | n + 1 =>
    match readU32 buf pos, readU32 buf (pos + 4) with
    | some a, some b =>
      match readPairs buf (pos + 8) n with
      | some ps => some ((a, b) :: ps)
      | none => none
    | _, _ => none

/-- The key order of `sort_by_key(|a| a.0)`: compare pairs by first
component. -/
def PairLe (a b : Nat × Nat) : Prop := a.1 ≤ b.1

instance : DecidableRel PairLe := fun a b =>
  inferInstanceAs (Decidable (a.1 ≤ b.1))

instance : IsTotal (Nat × Nat) PairLe := ⟨fun a b => Nat.le_total a.1 b.1⟩

instance : IsTrans (Nat × Nat) PairLe := ⟨fun _ _ _ => Nat.le_trans⟩

/-- `new_table.sort_by_key(|a| a.0)`: a stable ascending sort on the first
component, modelled by stable insertion sort. -/
def sortPairs (l : List (Nat × Nat)) : List (Nat × Nat) :=
  List.insertionSort PairLe l

/-- Lines 132–144 of `disasm.rs`: resolve the reference table for `refpos`.
On a cache miss, seek to `ref_start + refpos` (32-bit wrap), read `size`
pairs (each read unwrapped: failure is a panic), sort them by hash index and
insert into the cache; on a hit, return the cached table with the cursor and
the context untouched.  Returns the table, the cursor position and the
updated context. -/
def resolveRefTable (buf : List Nat) (pos : Nat) (fd : FileData)
    (size refpos : Nat) : Res (List (Nat × Nat) × Nat × FileData) :=
  match lookupRT fd.ref_tables refpos with
  | some t => .ok (t, pos, fd)
  | none =>
    match readPairs buf ((fd.ref_start + refpos) % 2 ^ 32) size with
    | none => .panicked
    | some ps =>
      let t := sortPairs ps
      .ok (t, (fd.ref_start + refpos) % 2 ^ 32 + 8 * size,
        { fd with ref_tables := (refpos, t) :: fd.ref_tables })

/-- The element loop of the tag-11 branch, abstracted over the recursive
decoder `f`: for each offset `o` in order, seek to `basePos + o`, decode one
value with `f`, and propagate any failure (`?` in the source). -/
def listLoop (f : Nat → FileData → Res (ParamKind × Nat × FileData))
    (basePos : Nat) :
    List Nat → FileData → Nat → Res (List ParamKind × Nat × FileData)
  | [], fd, p => .ok ([], p, fd)
  | o :: rest, fd, p =>
    match f (basePos + o) fd with
    | .ok (v, p1, fd1) =>
      match listLoop f basePos rest fd1 p1 with
      | .ok (vs, p2, fd2) => .ok (v :: vs, p2, fd2)
      | .err e => .err e
      | .panicked => .panicked
    | .err e => .err e
    | .panicked => .panicked

/-- The member loop of the tag-12 branch (lines 146–155), abstracted over
the recursive decoder `f`: for each `(hash_index, offset)` entry, fetch
`hash_table[hash_index]` by unchecked indexing (out of bounds is a panic),
seek to `basePos + offset`, decode one value with `f`, and unwrap it (any
returned error becomes a panic). -/
def structLoop (f : Nat → FileData → Res (ParamKind × Nat × FileData))
    (basePos : Nat) :
    List (Nat × Nat) → FileData → Nat →
      Res (List (Nat × ParamKind) × Nat × FileData)
  | [], fd, p => .ok ([], p, fd)
  | (hi, off) :: rest, fd, p =>
    if h : hi < fd.hash_table.length then
      match f (basePos + off) fd with
      | .ok (v, p1, fd1) =>
        match structLoop f basePos rest fd1 p1 with
        | .ok (ms, p2, fd2) => .ok ((fd.hash_table.get ⟨hi, h⟩, v) :: ms, p2, fd2)
        | .err e => .err e
        | .panicked => .panicked
      | .err _ => .panicked
      | .panicked => .panicked
    else .panicked

/-- `read_param` (lines 55–167 of `disasm.rs`): given the cursor at a type
tag byte, decode one value, returning it together with the final cursor
position and the updated context.  Fuel bounds the recursion depth; running
out models stack exhaustion and is a `panicked` outcome. -/
def readParam : Nat → List Nat → Nat → FileData → Res (ParamKind × Nat × FileData)
  | 0, _, _, _ => .panicked
  | fuel + 1, buf, pos, fd =>
    match readU8 buf pos with
    | none => .err .eof
    | some tag =>
      if tag = 1 then
        match readU8 buf (pos + 1) with
        | none => .err .eof
        | some v => .ok (.bool (v ≠ 0), pos + 2, fd)
      else if tag = 2 then
        match readU8 buf (pos + 1) with
        | none => .err .eof
        | some v => .ok (.i8 (asI8 v), pos + 2, fd)
      else if tag = 3 then
        match readU8 buf (pos + 1) with
        | none => .err .eof
        | some v => .ok (.u8 v, pos + 2, fd)
      else if tag = 4 then
        match readU16 buf (pos + 1) with
        | none => .err .eof
        | some v => .ok (.i16 (asI16 v), pos + 3, fd)
      else if tag = 5 then
        match readU16 buf (pos + 1) with
        | none => .err .eof
        | some v => .ok (.u16 v, pos + 3, fd)
      else if tag = 6 then
        match readU32 buf (pos + 1) with
        | none => .err .eof
        | some v => .ok (.i32 (asI32 v), pos + 5, fd)
      else if tag = 7 then
        match readU32 buf (pos + 1) with
        | none => .err .eof
        | some v => .ok (.u32 v, pos + 5, fd)
      else if tag = 8 then
        match readU32 buf (pos + 1) with
        | none => .err .eof
        | some v => .ok (.float v, pos + 5, fd)
      else if tag = 9 then
        match readU32 buf (pos + 1) with
        | none => .err .eof
        | some raw =>
          if h : hashIndexOf raw < fd.hash_table.length then
            .ok (.hash (fd.hash_table.get ⟨hashIndexOf raw, h⟩), pos + 5, fd)
          else .panicked
      else if tag = 10 then
        match readU32 buf (pos + 1) with
        | none => .err .eof
        | some strpos =>
          match readStrLoop buf ((fd.ref_start + strpos) % 2 ^ 32) with
          | .ok (s, p) => .ok (.str s, p, fd)
          | .err e => .err e
          | .panicked => .panicked
      else if tag = 11 then
        match readU32 buf (pos + 1) with
        | none => .err .eof
        | some size =>
          match readU32s buf (pos + 5) size with
          | none => .err .eof
          | some offs =>
            match listLoop (fun q g => readParam fuel buf q g) pos offs fd
                (pos + 5 + 4 * size) with
            | .ok (vs, p, fd') => .ok (.list vs, p, fd')
            | .err e => .err e
            | .panicked => .panicked
      else if tag = 12 then
        match readU32 buf (pos + 1) with
        | none => .panicked
        | some size =>
          match readU32 buf (pos + 5) with
          | none => .panicked
          | some refpos =>
            match resolveRefTable buf (pos + 9) fd size refpos with
            | .ok (t, p1, fd1) =>
              match structLoop (fun q g => readParam fuel buf q g) pos t fd1 p1 with
              | .ok (ms, p2, fd2) => .ok (.strct ms, p2, fd2)
              | .err e => .err e
              | .panicked => .panicked
            | .err e => .err e
            | .panicked => .panicked
      else .err (.unknownTag pos)

/-- Modelled from the spec: the fixed 8-byte format signature `param::MAGIC`
(§4.1, §6; `param.rs` is not under `src/`).  The concrete bytes spell the
format's well-known signature text; no claim depends on their values. -/
def MAGIC : List Nat := [0x70, 0x61, 0x72, 0x61, 0x63, 0x6f, 0x62, 0x6e]

/-- `cursor.read(&mut magic_bytes)`: copies up to 8 bytes from the front of
the buffer into a zero-initialised 8-byte array. -/
def readMagic (buf : List Nat) : List Nat :=
  buf.take 8 ++ List.replicate (8 - buf.length) 0

/-- The hash-table loading loop: `hashnum` consecutive 8-byte reads, each
propagating end-of-buffer as a returned error. -/
def readHashes (buf : List Nat) (pos : Nat) : Nat → Option (List Nat)
  | 0 => some []
  | n + 1 =>
    match readU64 buf pos with
    | some v =>
      match readHashes buf (pos + 8) n with
      | some vs => some (v :: vs)
      | none => none
    | none => none

/-- Lines 21–40 of `disassemble`: magic validation, the two size fields, and
hash-table loading, producing the initial decode context.  Since `MAGIC`
contains no zero byte, a buffer shorter than 8 bytes can never match the
zero-padded magic read, so on a match the cursor is at offset 8 and the size
fields are read at offsets 8 and 12.  The section boundaries are 32-bit
sums as in the source. -/
def parseHeader (buf : List Nat) : Res FileData :=
  if readMagic buf ≠ MAGIC then .err .invalidMagic
  else
    match readU32 buf 8 with
    | none => .err .eof
    | some hashsize =>
      match readU32 buf 12 with
      | none => .err .eof
      | some refsize =>
        match readHashes buf 16 (hashsize / 8) with
        | none => .err .eof
        | some hs =>
          .ok { ref_start := (0x10 + hashsize) % 2 ^ 32,
                param_start := (0x10 + hashsize + refsize) % 2 ^ 32,
                hash_table := hs,
                ref_tables := [] }

/-- `disassemble` (lines 20–53): parse the header, seek to `param_start`,
require the root tag byte to be 12 (else the missing-root error), rewind one
byte and run the recursive decoder there. -/
def disassemble (fuel : Nat) (buf : List Nat) : Res ParamKind :=
  match parseHeader buf with
  | .err e => .err e
  | .panicked => .panicked
  | .ok fd =>
    match readU8 buf fd.param_start with
    | none => .err .eof
    | some b =>
      if b ≠ 12 then .err .missingRoot
      else
        match readParam fuel buf fd.param_start fd with
        | .ok (p, _, _) => .ok p
        | .err e => .err e
        | .panicked => .panicked

/-! ## Invariants of the decode context -/

/-- Every table stored in the reference-table cache is sorted ascending by
its hash-index component. -/
def SortedCache (fd : FileData) : Prop :=
  ∀ r t, lookupRT fd.ref_tables r = some t → List.Sorted PairLe t

/-- Relation between the decode context before and after a decoding step:
the section boundaries and the hash table are unchanged, every cached
reference table stays cached unchanged, and cache sortedness is
preserved. -/
def FDmono (fd fd' : FileData) : Prop :=
  fd'.ref_start = fd.ref_start ∧ fd'.hash_table = fd.hash_table ∧
    (∀ r t, lookupRT fd.ref_tables r = some t →
      lookupRT fd'.ref_tables r = some t) ∧
    (SortedCache fd → SortedCache fd')

lemma FDmono.refl (fd : FileData) : FDmono fd fd :=
  ⟨rfl, rfl, fun _ _ h => h, id⟩

lemma FDmono.trans {a b c : FileData} (h1 : FDmono a b) (h2 : FDmono b c) :
    FDmono a c :=
  ⟨h2.1.trans h1.1, h2.2.1.trans h1.2.1,
    fun r t h => h2.2.2.1 r t (h1.2.2.1 r t h),
    fun hs => h2.2.2.2 (h1.2.2.2 hs)⟩

/-- An empty cache is (vacuously) sorted. -/
lemma sortedCache_of_nil {fd : FileData} (h : fd.ref_tables = []) :
    SortedCache fd := by
  intro r t hl
  rw [h] at hl
  simp [lookupRT] at hl

/-- Characterization of a successful reference-table resolution: the
context evolves monotonically, the returned table ends up cached under its
offset, and it is sorted by hash index whenever the incoming cache is. -/
lemma resolveRefTable_ok {buf : List Nat} {pos : Nat} {fd : FileData}
    {size refpos : Nat} {t : List (Nat × Nat)} {p : Nat} {fd' : FileData}
    (h : resolveRefTable buf pos fd size refpos = .ok (t, p, fd')) :
    FDmono fd fd' ∧ lookupRT fd'.ref_tables refpos = some t ∧
      (SortedCache fd → List.Sorted PairLe t) := by
  unfold resolveRefTable at h
  cases hl : lookupRT fd.ref_tables refpos with
  | some t0 =>
    rw [hl] at h
    obtain ⟨rfl, rfl, rfl⟩ : t0 = t ∧ pos = p ∧ fd = fd' := by
      cases h; exact ⟨rfl, rfl, rfl⟩
    exact ⟨FDmono.refl fd, hl, fun hs => hs _ _ hl⟩
  | none =>
    rw [hl] at h
    cases hp : readPairs buf ((fd.ref_start + refpos) % 2 ^ 32) size with
    | none => rw [hp] at h; cases h
    | some ps =>
      rw [hp] at h
      obtain ⟨rfl, -, rfl⟩ : sortPairs ps = t ∧
          (fd.ref_start + refpos) % 2 ^ 32 + 8 * size = p ∧
          { fd with ref_tables := (refpos, sortPairs ps) :: fd.ref_tables } = fd' := by
        cases h; exact ⟨rfl, rfl, rfl⟩
      refine ⟨⟨rfl, rfl, ?_, ?_⟩, ?_, fun _ => ?_⟩
      · intro r t1 h1
        simp only [lookupRT]
        rcases eq_or_ne r refpos with rfl | hne
        · rw [hl] at h1; cases h1
        · rw [if_neg hne]; exact h1
      · intro hs r t1 h1
        simp only [lookupRT] at h1
        rcases eq_or_ne r refpos with rfl | hne
        · rw [if_pos rfl] at h1
          cases h1
          exact List.sorted_insertionSort PairLe ps
        · rw [if_neg hne] at h1
          exact hs r t1 h1
      · simp [lookupRT]
      · exact List.sorted_insertionSort PairLe ps

/-- The element loop evolves the context monotonically whenever the decoder
it iterates does. -/
lemma listLoop_mono {f : Nat → FileData → Res (ParamKind × Nat × FileData)}
    (hf : ∀ q fd v p' fd', f q fd = .ok (v, p', fd') → FDmono fd fd')
    (basePos : Nat) :
    ∀ offs fd p vs p' fd',
      listLoop f basePos offs fd p = .ok (vs, p', fd') → FDmono fd fd' := by
  intro offs
  induction offs with
  | nil =>
    intro fd p vs p' fd' h
    simp only [listLoop] at h
    cases h
    exact FDmono.refl fd
  | cons o rest ih =>
    intro fd p vs p' fd' h
    simp only [listLoop] at h
    cases h1 : f (basePos + o) fd with
    | ok r1 =>
      obtain ⟨v, p1, fd1⟩ := r1
      simp only [h1] at h
      cases h2 : listLoop f basePos rest fd1 p1 with
      | ok r2 =>
        obtain ⟨vs2, p2, fd2⟩ := r2
        simp only [h2] at h
        cases h
        exact (hf _ _ _ _ _ h1).trans (ih _ _ _ _ _ h2)
      | err e => simp only [h2] at h; cases h
      | panicked => simp only [h2] at h; cases h
    | err e => simp only [h1] at h; cases h
    | panicked => simp only [h1] at h; cases h

/-- The member loop evolves the context monotonically whenever the decoder
it iterates does. -/
lemma structLoop_mono {f : Nat → FileData → Res (ParamKind × Nat × FileData)}
    (hf : ∀ q fd v p' fd', f q fd = .ok (v, p', fd') → FDmono fd fd')
    (basePos : Nat) :
    ∀ t fd p ms p' fd',
      structLoop f basePos t fd p = .ok (ms, p', fd') → FDmono fd fd' := by
  intro t
  induction t with
  | nil =>
    intro fd p ms p' fd' h
    simp only [structLoop] at h
    cases h
    exact FDmono.refl fd
  | cons e rest ih =>
    obtain ⟨hi, off⟩ := e
    intro fd p ms p' fd' h
    simp only [structLoop] at h
    split at h
    · cases h1 : f (basePos + off) fd with
      | ok r1 =>
        obtain ⟨v, p1, fd1⟩ := r1
        simp only [h1] at h
        cases h2 : structLoop f basePos rest fd1 p1 with
        | ok r2 =>
          obtain ⟨ms2, p2, fd2⟩ := r2
          simp only [h2] at h
          cases h
          exact (hf _ _ _ _ _ h1).trans (ih _ _ _ _ _ h2)
        | err e => simp only [h2] at h; cases h
        | panicked => simp only [h2] at h; cases h
      | err e => simp only [h1] at h; cases h
      | panicked => simp only [h1] at h; cases h
    · cases h

/-- Shape analysis of a successful decode at positive fuel. -/
lemma readParam_succ_inv {n : Nat} {buf : List Nat} {pos : Nat} {fd : FileData}
    {v : ParamKind} {p' : Nat} {fd' : FileData}
    (h : readParam (n + 1) buf pos fd = .ok (v, p', fd')) :
    (fd' = fd ∧ (∀ vs, v ≠ .list vs) ∧ (∀ ms, v ≠ .strct ms)) ∨
    (∃ vs size offs, v = .list vs ∧
      readU32 buf (pos + 1) = some size ∧
      readU32s buf (pos + 5) size = some offs ∧
      listLoop (fun q g => readParam n buf q g) pos offs fd (pos + 5 + 4 * size) =
        .ok (vs, p', fd')) ∨
    (∃ ms size refpos t p1 fd1, v = .strct ms ∧
      readU32 buf (pos + 1) = some size ∧
      readU32 buf (pos + 5) = some refpos ∧
      resolveRefTable buf (pos + 9) fd size refpos = .ok (t, p1, fd1) ∧
      structLoop (fun q g => readParam n buf q g) pos t fd1 p1 =
        .ok (ms, p', fd')) := by
  simp only [readParam] at h
  cases hu : readU8 buf pos with
  | none => simp only [hu] at h; cases h
  | some tag =>
  simp only [hu] at h
  by_cases h1 : tag = 1
  · rw [if_pos h1] at h
    cases hv : readU8 buf (pos + 1) with
    | none => simp only [hv] at h; cases h
    | some v0 =>
      simp only [hv] at h; cases h
      exact Or.inl ⟨rfl, fun _ hc => ParamKind.noConfusion hc,
        fun _ hc => ParamKind.noConfusion hc⟩
  rw [if_neg h1] at h
  by_cases h2 : tag = 2
  · rw [if_pos h2] at h
    cases hv : readU8 buf (pos + 1) with
    | none => simp only [hv] at h; cases h
    | some v0 =>
      simp only [hv] at h; cases h
      exact Or.inl ⟨rfl, fun _ hc => ParamKind.noConfusion hc,
        fun _ hc => ParamKind.noConfusion hc⟩
  rw [if_neg h2] at h
  by_cases h3 : tag = 3
  · rw [if_pos h3] at h
    cases hv : readU8 buf (pos + 1) with
    | none => simp only [hv] at h; cases h
    | some v0 =>
      simp only [hv] at h; cases h
      exact Or.inl ⟨rfl, fun _ hc => ParamKind.noConfusion hc,
        fun _ hc => ParamKind.noConfusion hc⟩
  rw [if_neg h3] at h
  by_cases h4 : tag = 4
  · rw [if_pos h4] at h
    cases hv : readU16 buf (pos + 1) with
    | none => simp only [hv] at h; cases h
    | some v0 =>
      simp only [hv] at h; cases h
      exact Or.inl ⟨rfl, fun _ hc => ParamKind.noConfusion hc,
        fun _ hc => ParamKind.noConfusion hc⟩
  rw [if_neg h4] at h
  by_cases h5 : tag = 5
  · rw [if_pos h5] at h
    cases hv : readU16 buf (pos + 1) with
    | none => simp only [hv] at h; cases h
    | some v0 =>
      simp only [hv] at h; cases h
      exact Or.inl ⟨rfl, fun _ hc => ParamKind.noConfusion hc,
        fun _ hc => ParamKind.noConfusion hc⟩
  rw [if_neg h5] at h
  by_cases h6 : tag = 6
  · rw [if_pos h6] at h
    cases hv : readU32 buf (pos + 1) with
    | none => simp only [hv] at h; cases h
    | some v0 =>
      simp only [hv] at h; cases h
      exact Or.inl ⟨rfl, fun _ hc => ParamKind.noConfusion hc,
        fun _ hc => ParamKind.noConfusion hc⟩
  rw [if_neg h6] at h
  by_cases h7 : tag = 7
  · rw [if_pos h7] at h
    cases hv : readU32 buf (pos + 1) with
    | none => simp only [hv] at h; cases h
    | some v0 =>
      simp only [hv] at h; cases h
      exact Or.inl ⟨rfl, fun _ hc => ParamKind.noConfusion hc,
        fun _ hc => ParamKind.noConfusion hc⟩
  rw [if_neg h7] at h
  by_cases h8 : tag = 8
  · rw [if_pos h8] at h
    cases hv : readU32 buf (pos + 1) with
    | none => simp only [hv] at h; cases h
    | some v0 =>
      simp only [hv] at h; cases h
      exact Or.inl ⟨rfl, fun _ hc => ParamKind.noConfusion hc,
        fun _ hc => ParamKind.noConfusion hc⟩
  rw [if_neg h8] at h
  by_cases h9 : tag = 9
  · rw [if_pos h9] at h
    cases hv : readU32 buf (pos + 1) with
    | none => simp only [hv] at h; cases h
    | some raw =>
      simp only [hv] at h
      split at h
      · cases h
        exact Or.inl ⟨rfl, fun _ hc => ParamKind.noConfusion hc,
          fun _ hc => ParamKind.noConfusion hc⟩
      · cases h
  rw [if_neg h9] at h
  by_cases h10 : tag = 10
  · rw [if_pos h10] at h
    cases hv : readU32 buf (pos + 1) with
    | none => simp only [hv] at h; cases h
    | some strpos =>
      simp only [hv] at h
      cases hs : readStrLoop buf ((fd.ref_start + strpos) % 2 ^ 32) with
      | ok r =>
        obtain ⟨s, p⟩ := r
        simp only [hs] at h; cases h
        exact Or.inl ⟨rfl, fun _ hc => ParamKind.noConfusion hc,
          fun _ hc => ParamKind.noConfusion hc⟩
      | err e => simp only [hs] at h; cases h
      | panicked => simp only [hs] at h; cases h
  rw [if_neg h10] at h
  by_cases h11 : tag = 11
  · rw [if_pos h11] at h
    cases hv : readU32 buf (pos + 1) with
    | none => simp only [hv] at h; cases h
    | some size =>
      simp only [hv] at h
      cases ho : readU32s buf (pos + 5) size with
      | none => simp only [ho] at h; cases h
      | some offs =>
        simp only [ho] at h
        cases hl : listLoop (fun q g => readParam n buf q g) pos offs fd
            (pos + 5 + 4 * size) with
        | ok r =>
          obtain ⟨vs, p2, fd2⟩ := r
          simp only [hl] at h; cases h
          exact Or.inr (Or.inl ⟨vs, size, offs, rfl, rfl, ho, hl⟩)
        | err e => simp only [hl] at h; cases h
        | panicked => simp only [hl] at h; cases h
  rw [if_neg h11] at h
  by_cases h12 : tag = 12
  · rw [if_pos h12] at h
    cases hv : readU32 buf (pos + 1) with
    | none => simp only [hv] at h; cases h
    | some size =>
      simp only [hv] at h
      cases hr : readU32 buf (pos + 5) with
      | none => simp only [hr] at h; cases h
      | some refpos =>
        simp only [hr] at h
        cases hres : resolveRefTable buf (pos + 9) fd size refpos with
        | ok r1 =>
          obtain ⟨t, p1, fd1⟩ := r1
          simp only [hres] at h
          cases hl : structLoop (fun q g => readParam n buf q g) pos t fd1 p1 with
          | ok r2 =>
            obtain ⟨ms, p2, fd2⟩ := r2
            simp only [hl] at h; cases h
            exact Or.inr (Or.inr ⟨ms, size, refpos, t, p1, fd1, rfl, rfl, rfl, hres, hl⟩)
          | err e => simp only [hl] at h; cases h
          | panicked => simp only [hl] at h; cases h
        | err e => simp only [hres] at h; cases h
        | panicked => simp only [hres] at h; cases h
  rw [if_neg h12] at h
  cases h


/-- `read_param` evolves the decode context monotonically: boundaries and
hash table unchanged, cached tables preserved, sortedness preserved. -/
lemma readParam_mono : ∀ fuel buf pos fd v p' fd',
    readParam fuel buf pos fd = .ok (v, p', fd') → FDmono fd fd' := by
  intro fuel
  induction fuel with
  | zero => intro buf pos fd v p' fd' h; simp [readParam] at h
  | succ n ih =>
    intro buf pos fd v p' fd' h
    rcases readParam_succ_inv h with ⟨rfl, -, -⟩ |
      ⟨vs, size, offs, rfl, -, -, hl⟩ |
      ⟨ms, size, refpos, t, p1, fd1, rfl, -, -, hres, hl⟩
    · exact FDmono.refl _
    · exact listLoop_mono (fun q g v2 p2 fd2 hq => ih buf q g v2 p2 fd2 hq)
        pos offs fd _ vs p' fd' hl
    · exact ((resolveRefTable_ok hres).1).trans
        (structLoop_mono (fun q g v2 p2 fd2 hq => ih buf q g v2 p2 fd2 hq)
          pos t fd1 p1 ms p' fd' hl)

lemma getD_of_lt (l : List Nat) (i : Nat) (h : i < l.length) :
    l.getD i 0 = l.get ⟨i, h⟩ := by
  simp [List.getD_eq_getElem?_getD, List.getElem?_eq_getElem h,
    List.get_eq_getElem]

/-- The member loop pairs the decoded values with exactly the hash-table
entries selected by the table's hash indices, in table order. -/
lemma structLoop_hashes {f : Nat → FileData → Res (ParamKind × Nat × FileData)}
    (hf : ∀ q fd v p' fd', f q fd = .ok (v, p', fd') → FDmono fd fd')
    (basePos : Nat) :
    ∀ t fd p ms p' fd', structLoop f basePos t fd p = .ok (ms, p', fd') →
      ms.map Prod.fst = t.map (fun e => fd.hash_table.getD e.1 0) := by
  intro t
  induction t with
  | nil =>
    intro fd p ms p' fd' h
    simp only [structLoop] at h
    cases h
    rfl
  | cons e rest ih =>
    obtain ⟨hi, off⟩ := e
    intro fd p ms p' fd' h
    simp only [structLoop] at h
    split at h
    case isTrue hlt =>
      cases h1 : f (basePos + off) fd with
      | ok r1 =>
        obtain ⟨v, p1, fd1⟩ := r1
        simp only [h1] at h
        cases h2 : structLoop f basePos rest fd1 p1 with
        | ok r2 =>
          obtain ⟨ms2, p2, fd2⟩ := r2
          simp only [h2] at h
          cases h
          have hht : fd1.hash_table = fd.hash_table := (hf _ _ _ _ _ h1).2.1
          simp only [List.map_cons]
          rw [ih fd1 p1 ms2 p' fd' h2, hht, getD_of_lt fd.hash_table hi hlt]
        | err e2 => simp only [h2] at h; cases h
        | panicked => simp only [h2] at h; cases h
      | err e2 => simp only [h1] at h; cases h
      | panicked => simp only [h1] at h; cases h
    case isFalse => cases h

/-- The element loop produces exactly one element per offset, in offset
order: the `i`-th element is a value decoded at `basePos + offs[i]`. -/
lemma listLoop_index {f : Nat → FileData → Res (ParamKind × Nat × FileData)}
    (basePos : Nat) :
    ∀ offs fd p es p' fd', listLoop f basePos offs fd p = .ok (es, p', fd') →
      es.length = offs.length ∧
        ∀ i (h1 : i < offs.length) (h2 : i < es.length),
          ∃ fdi pi fdi',
            f (basePos + offs.get ⟨i, h1⟩) fdi = .ok (es.get ⟨i, h2⟩, pi, fdi') := by
  intro offs
  induction offs with
  | nil =>
    intro fd p es p' fd' h
    simp only [listLoop] at h
    cases h
    exact ⟨rfl, fun i h1 _ => absurd h1 (Nat.not_lt_zero i)⟩
  | cons o rest ih =>
    intro fd p es p' fd' h
    simp only [listLoop] at h
    cases h1 : f (basePos + o) fd with
    | ok r1 =>
      obtain ⟨v, p1, fd1⟩ := r1
      simp only [h1] at h
      cases h2 : listLoop f basePos rest fd1 p1 with
      | ok r2 =>
        obtain ⟨vs, p2, fd2⟩ := r2
        simp only [h2] at h
        cases h
        obtain ⟨hlen, hidx⟩ := ih fd1 p1 vs p' fd' h2
        refine ⟨by simp [hlen], ?_⟩
        intro i hi1 hi2
        cases i with
        | zero => exact ⟨fd, p1, fd1, h1⟩
        | succ j =>
          exact hidx j (Nat.lt_of_succ_lt_succ hi1) (Nat.lt_of_succ_lt_succ hi2)
      | err e2 => simp only [h2] at h; cases h
      | panicked => simp only [h2] at h; cases h
    | err e2 => simp only [h1] at h; cases h
    | panicked => simp only [h1] at h; cases h

lemma drop_cons_of_readU8 {buf : List Nat} {pos b : Nat}
    (h : readU8 buf pos = some b) :
    buf.drop pos = b :: buf.drop (pos + 1) := by
  unfold readU8 at h
  rw [List.get?_eq_getElem?] at h
  obtain ⟨hlt, hb⟩ := List.getElem?_eq_some.mp h
  rw [List.drop_eq_getElem_cons hlt, hb]

/-- Characterization of a successful run of the string loop: it returns
exactly the bytes before the first zero byte, each turned into a character
code unchanged, consuming the terminator. -/
lemma strLoopAux_ok {buf : List Nat} : ∀ fuel pos s p',
    strLoopAux fuel buf pos = .ok (s, p') →
      s = (buf.drop pos).takeWhile (fun b => b ≠ 0) ∧
        p' = pos + s.length + 1 ∧ (0 : Nat) ∉ s := by
  intro fuel
  induction fuel with
  | zero =>
    intro pos s p' h
    simp only [strLoopAux] at h
    cases h
  | succ n ih =>
    intro pos s p' h
    simp only [strLoopAux] at h
    cases hb : readU8 buf pos with
    | none => simp only [hb] at h; cases h
    | some b =>
      simp only [hb] at h
      by_cases hz : b ≠ 0
      · rw [if_pos hz] at h
        cases h2 : strLoopAux n buf (pos + 1) with
        | ok r =>
          obtain ⟨s0, p0⟩ := r
          simp only [h2] at h
          cases h
          obtain ⟨hs0, hp0, hni⟩ := ih (pos + 1) s0 p' h2
          refine ⟨?_, ?_, ?_⟩
          · rw [drop_cons_of_readU8 hb, List.takeWhile_cons]
            simp [hz, hs0]
          · simp only [List.length_cons]
            omega
          · intro hmem
            rcases List.mem_cons.mp hmem with rfl | hmem2
            · exact hz rfl
            · exact hni hmem2
        | err e => simp only [h2] at h; cases h
        | panicked => simp only [h2] at h; cases h
      · rw [if_neg hz] at h
        cases h
        push_neg at hz
        subst hz
        refine ⟨?_, rfl, List.not_mem_nil 0⟩
        rw [drop_cons_of_readU8 hb, List.takeWhile_cons]
        simp



lemma readPairs_length {buf : List Nat} : ∀ n pos ps,
    readPairs buf pos n = some ps → ps.length = n := by
  intro n
  induction n with
  | zero =>
    intro pos ps h
    simp only [readPairs] at h
    cases h
    rfl
  | succ k ih =>
    intro pos ps h
    simp only [readPairs] at h
    cases ha : readU32 buf pos with
    | none => simp only [ha] at h; cases h
    | some a =>
      cases hb : readU32 buf (pos + 4) with
      | none => simp only [ha, hb] at h; cases h
      | some b =>
        simp only [ha, hb] at h
        cases hr : readPairs buf (pos + 8) k with
        | none => simp only [hr] at h; cases h
        | some ps0 =>
          simp only [hr] at h
          cases h
          simp [ih (pos + 8) ps0 hr]

/-! ## The claims -/

/-- C7: decoding is deterministic — running the decode twice on equal byte
buffers yields structurally equal results, success and failure alike.  The
embedded decoder is a pure function of the buffer (and the fuel bound), so
equal inputs give equal outputs. -/
theorem decode_deterministic : ∀ fuel b1 b2, b1 = b2 →
    disassemble fuel b1 = disassemble fuel b2 := by
  intro fuel b1 b2 h
  rw [h]

/-- C9: after the header and hash table are loaded, the byte at
`param_start` is read; a value other than 12 fails with the missing-root
error, and on 12 the cursor is rewound by one byte so the recursive decoder
re-reads that very tag byte — i.e. the decode continues as `read_param`
invoked at `param_start` itself. -/
theorem root_validation : ∀ buf fuel fd b,
    parseHeader buf = .ok fd → readU8 buf fd.param_start = some b →
    ((b ≠ 12 → disassemble fuel buf = .err .missingRoot) ∧
      (b = 12 → disassemble fuel buf =
        match readParam fuel buf fd.param_start fd with
        | .ok (p, _, _) => .ok p
        | .err e => .err e
        | .panicked => .panicked)) := by
  intro buf fuel fd b hph hb
  simp only [disassemble, hph, hb]
  constructor
  · intro hne
    rw [if_pos hne]
  · intro h12
    subst h12
    simp

/-- C6: the reference-table cache memoizes: a request for an offset `r`
already cached returns the cached table with the cursor and the context
untouched (no re-read, no re-sort), and a whole decoding step never changes
or drops an existing cache entry — so all structs sharing `r` within one
decode resolve to the identical member descriptor list, whatever the visit
order or count. -/
theorem ref_table_memoization :
    (∀ buf pos fd size r t, lookupRT fd.ref_tables r = some t →
      resolveRefTable buf pos fd size r = .ok (t, pos, fd)) ∧
    (∀ fuel buf pos fd v p' fd',
      readParam fuel buf pos fd = .ok (v, p', fd') →
      ∀ r t, lookupRT fd.ref_tables r = some t →
        lookupRT fd'.ref_tables r = some t) := by
  constructor
  · intro buf pos fd size r t hl
    unfold resolveRefTable
    rw [hl]
  · intro fuel buf pos fd v p' fd' h r t hl
    exact (readParam_mono fuel buf pos fd v p' fd' h).2.2.1 r t hl

/-- C3 (amended): the member descriptor list is resolved through the cache
keyed by the reference-table offset; on a first request exactly `n` pairs
are read, but on a later request the cached list is returned unchanged for
any declared count `n` — even when its length differs from `n` — and no
mismatch check of any kind is performed. -/
theorem ref_table_resolution_unverified :
    (∀ buf pos fd n r t, lookupRT fd.ref_tables r = some t → t.length ≠ n →
      resolveRefTable buf pos fd n r = .ok (t, pos, fd)) ∧
    (∀ buf pos fd n r t p fd', lookupRT fd.ref_tables r = none →
      resolveRefTable buf pos fd n r = .ok (t, p, fd') →
      t.length = n ∧ lookupRT fd'.ref_tables r = some t) := by
  constructor
  · intro buf pos fd n r t hl _
    unfold resolveRefTable
    rw [hl]
  · intro buf pos fd n r t p fd' hl h
    unfold resolveRefTable at h
    rw [hl] at h
    cases hp : readPairs buf ((fd.ref_start + r) % 2 ^ 32) n with
    | none => simp only [hp] at h; cases h
    | some ps =>
      simp only [hp] at h
      cases h
      constructor
      · rw [sortPairs, (List.perm_insertionSort PairLe ps).length_eq,
          readPairs_length n _ ps hp]
      · simp [lookupRT]

/-- C5: a successfully decoded List (tag 11) preserves the on-disk
offset-table order exactly: the element count and the offsets are read in
sequence after the tag at position `pos`, and the `i`-th decoded element is
a value decoded at position `pos + offsets[i]`, with one element per offset
and no reordering. -/
theorem list_elements_preserve_offset_order :
    ∀ fuel buf pos fd es p' fd',
      readParam (fuel + 1) buf pos fd = .ok (.list es, p', fd') →
      ∃ size offs, readU32 buf (pos + 1) = some size ∧
        readU32s buf (pos + 5) size = some offs ∧
        es.length = offs.length ∧
        ∀ i (h1 : i < offs.length) (h2 : i < es.length),
          ∃ fdi pi fdi',
            readParam fuel buf (pos + offs.get ⟨i, h1⟩) fdi =
              .ok (es.get ⟨i, h2⟩, pi, fdi') := by
  intro fuel buf pos fd es p' fd' h
  rcases readParam_succ_inv h with ⟨-, hno, -⟩ |
    ⟨vs, size, offs, heq, hv, ho, hl⟩ | ⟨ms, _, _, _, _, _, heq, -⟩
  · exact absurd rfl (hno es)
  · obtain rfl : es = vs := by injection heq
    obtain ⟨hlen, hidx⟩ := listLoop_index pos offs fd _ es p' fd' hl
    exact ⟨size, offs, hv, ho, hlen, hidx⟩
  · exact ParamKind.noConfusion heq

/-- C4: every successfully decoded Struct's member sequence follows the
reference table in its cached — sorted — order: there is a table `t`,
cached under the struct's reference-table offset, sorted ascending by hash
index, such that the members' hash tags are exactly the hash-table entries
selected by `t`'s indices in that sorted order (even if the on-disk pairs
were unsorted). -/
theorem struct_members_sorted_by_hash_index :
    ∀ fuel buf pos fd params p' fd', SortedCache fd →
      readParam fuel buf pos fd = .ok (.strct params, p', fd') →
      ∃ size refpos t, readU32 buf (pos + 1) = some size ∧
        readU32 buf (pos + 5) = some refpos ∧
        lookupRT fd'.ref_tables refpos = some t ∧
        List.Sorted PairLe t ∧
        params.map Prod.fst = t.map (fun e => fd.hash_table.getD e.1 0) := by
  intro fuel buf pos fd params p' fd' hs h
  cases fuel with
  | zero => simp [readParam] at h
  | succ n =>
    rcases readParam_succ_inv h with ⟨-, -, hno⟩ |
      ⟨vs, _, _, heq, -⟩ |
      ⟨ms, size, refpos, t, p1, fd1, heq, hv, hr, hres, hl⟩
    · exact absurd rfl (hno params)
    · exact ParamKind.noConfusion heq
    · obtain rfl : params = ms := by injection heq
      obtain ⟨hmono1, hlook1, hsort⟩ := resolveRefTable_ok hres
      have hmono2 := structLoop_mono
        (fun q g v2 p2 fd2 hq => readParam_mono n buf q g v2 p2 fd2 hq)
        pos t fd1 p1 params p' fd' hl
      refine ⟨size, refpos, t, hv, hr, hmono2.2.2.1 _ _ hlook1, hsort hs, ?_⟩
      rw [structLoop_hashes
        (fun q g v2 p2 fd2 hq => readParam_mono n buf q g v2 p2 fd2 hq)
        pos t fd1 p1 params p' fd' hl, hmono1.2.1]

/-- C8 (amended): tag 10 reads a 4-byte little-endian offset, seeks to
`ref_start + offset` and reads bytes up to (and excluding) a null
terminator, converting each byte directly into a character of that code
point; reaching the end of the buffer before a null is a returned read
error, but no text-encoding validation of any kind occurs, so a decode
never fails on account of invalid text. -/
theorem str_reads_raw_bytes_without_validation :
    (∀ buf pos s p', readStrLoop buf pos = .ok (s, p') →
      s = (buf.drop pos).takeWhile (fun b => b ≠ 0) ∧
        p' = pos + s.length + 1 ∧ (0 : Nat) ∉ s) ∧
    (∀ fuel buf pos fd v p' fd', readU8 buf pos = some 10 →
      readParam (fuel + 1) buf pos fd = .ok (v, p', fd') →
      ∃ strpos s, readU32 buf (pos + 1) = some strpos ∧
        readStrLoop buf ((fd.ref_start + strpos) % 2 ^ 32) = .ok (s, p') ∧
        v = .str s ∧ fd' = fd) := by
  constructor
  · intro buf pos s p' h
    exact strLoopAux_ok (buf.length - pos) pos s p' h
  · intro fuel buf pos fd v p' fd' htag h
    simp only [readParam, htag, reduceIte] at h
    cases hv : readU32 buf (pos + 1) with
    | none => simp only [hv] at h; cases h
    | some strpos =>
      simp only [hv] at h
      cases hs : readStrLoop buf ((fd.ref_start + strpos) % 2 ^ 32) with
      | ok r =>
        obtain ⟨s, p⟩ := r
        simp only [hs] at h
        cases h
        exact ⟨strpos, s, rfl, hs, rfl, rfl⟩
      | err e => simp only [hs] at h; cases h
      | panicked => simp only [hs] at h; cases h


/-! ## Concrete inputs -/

/-- A minimal file whose root Struct has one member: a Hash value (tag 9)
storing index 5, while the hash table has a single entry. -/
def bufHashOob : List Nat :=
  MAGIC ++ [8, 0, 0, 0] ++ [8, 0, 0, 0] ++
    [1, 0, 0, 0, 0, 0, 0, 0] ++
    [0, 0, 0, 0, 9, 0, 0, 0] ++
    [12, 1, 0, 0, 0, 0, 0, 0, 0] ++
    [9, 5, 0, 0, 0]

/-- A file that ends right after the root Struct's tag byte, so the struct
header's count read runs past the end of the buffer. -/
def bufTruncStruct : List Nat :=
  MAGIC ++ [0, 0, 0, 0] ++ [0, 0, 0, 0] ++ [12]

/-- A file whose root Struct's reference table holds the entry `(7, 9)` —
hash index 7 against a 1-entry hash table. -/
def bufMemberHashOob : List Nat :=
  MAGIC ++ [8, 0, 0, 0] ++ [8, 0, 0, 0] ++
    [1, 0, 0, 0, 0, 0, 0, 0] ++
    [7, 0, 0, 0, 9, 0, 0, 0] ++
    [12, 1, 0, 0, 0, 0, 0, 0, 0]

/-- A file with two inner Structs sharing reference-table offset 16: the
first declares member count 1, the second declares member count 0, so the
second's declared count disagrees with the 1-entry cached table. -/
def bufSizeMismatch : List Nat :=
  MAGIC ++ [24, 0, 0, 0] ++ [24, 0, 0, 0] ++
    [1, 0, 0, 0, 0, 0, 0, 0] ++ [2, 0, 0, 0, 0, 0, 0, 0] ++
    [3, 0, 0, 0, 0, 0, 0, 0] ++
    [0, 0, 0, 0, 9, 0, 0, 0] ++ [1, 0, 0, 0, 20, 0, 0, 0] ++
    [2, 0, 0, 0, 9, 0, 0, 0] ++
    [12, 2, 0, 0, 0, 0, 0, 0, 0] ++
    [12, 1, 0, 0, 0, 16, 0, 0, 0] ++
    [1, 1] ++
    [12, 0, 0, 0, 0, 16, 0, 0, 0] ++
    [1, 0]

/-- A file whose root Struct has a Str member whose bytes are the single
byte `0xFF` — not valid UTF-8 — followed by the null terminator. -/
def bufInvalidText : List Nat :=
  MAGIC ++ [8, 0, 0, 0] ++ [8, 0, 0, 0] ++
    [1, 0, 0, 0, 0, 0, 0, 0] ++
    [0, 0, 0, 0, 9, 0, 0, 0] ++
    [12, 1, 0, 0, 0, 0, 0, 0, 0] ++
    [10, 22, 0, 0, 0] ++
    [255, 0]

/-- A file whose byte at `param_start` is 13 rather than the Struct tag. -/
def bufRoot13 : List Nat :=
  MAGIC ++ [0, 0, 0, 0] ++ [0, 0, 0, 0] ++ [13]

/-- A stand-alone List encoding: tag 11, element count 1, one offset (9)
pointing at a Bool. -/
def bufOneList : List Nat := [11, 1, 0, 0, 0, 9, 0, 0, 0, 1, 1]

/-- A stand-alone Str encoding: tag 10, offset 5, then the bytes `H` and a
null terminator. -/
def bufOneStr : List Nat := [10, 5, 0, 0, 0, 72, 0]

/-- A file whose root Struct's on-disk reference table lists hash indices
in the order `[1, 0]` — not pre-sorted. -/
def bufUnsortedRefTable : List Nat :=
  MAGIC ++ [16, 0, 0, 0] ++ [16, 0, 0, 0] ++
    [1, 0, 0, 0, 0, 0, 0, 0] ++ [2, 0, 0, 0, 0, 0, 0, 0] ++
    [1, 0, 0, 0, 9, 0, 0, 0] ++ [0, 0, 0, 0, 11, 0, 0, 0] ++
    [12, 2, 0, 0, 0, 0, 0, 0, 0] ++
    [3, 7] ++
    [1, 1]

/-- C1: the claim says a Hash value whose stored index is at least the
hash-table length fails with a `HashIndexOutOfRange` decode error.  The
code instead indexes the hash table unchecked (`fd.hash_table[...]`,
line 90), so on `bufHashOob` — stored index 5 against a 1-entry table —
the decode aborts with a panic rather than returning any error. -/
theorem hash_index_oob_panics : disassemble 5 bufHashOob = .panicked := rfl

/-- C2: the claim says every read running past the end of the buffer
surfaces as a returned decode error and never aborts the process.  The
struct-header reads are unwrapped (`.unwrap()`, lines 129–130), so on
`bufTruncStruct` — a file ending right after the root tag byte — the
decode aborts with a panic instead of returning an error. -/
theorem truncated_struct_header_panics :
    disassemble 5 bufTruncStruct = .panicked := rfl

/-- C10: when decoding a Struct member, `fd.hash_table[hash_index]`
(line 151) is unchecked indexing; on `bufMemberHashOob`, whose reference
table holds hash index 7 against a 1-entry hash table, that indexing is out
of bounds and the decode aborts with a panic — it is not reported as any
decode error. -/
theorem struct_member_hash_index_oob_panics :
    disassemble 5 bufMemberHashOob = .panicked := rfl

/-- C3 (counterexample): on `bufSizeMismatch` the second inner Struct
declares member count 0 but resolves, through the cache, the 1-entry table
first read for the sibling that declared count 1 — and the decode succeeds,
decoding one member for it; no format error is raised, refuting the claim
that a count mismatch is a format error. -/
theorem size_mismatch_is_not_an_error :
    disassemble 9 bufSizeMismatch =
      .ok (.strct [(1, .strct [(3, .bool true)]),
                   (2, .strct [(3, .bool false)])]) := rfl

/-- C8 (counterexample): on `bufInvalidText` the Str member's byte sequence
is `0xFF`, which is not valid UTF-8 in any position, yet the decode
succeeds and produces a Str node holding that byte as a character —
refuting the claim that invalid text encoding fails the decode with an
`InvalidText` error. -/
theorem invalid_text_decodes_ok :
    disassemble 5 bufInvalidText = .ok (.strct [(1, .str [255])]) := rfl


/-! ## Witnesses -/

/-- Witness for C7 at a concrete buffer. -/
theorem decode_deterministic_witness :
    ([0, 1, 2] : List Nat) = [0, 1, 2] ∧
      disassemble 1 [0, 1, 2] = disassemble 1 [0, 1, 2] :=
  ⟨rfl, decode_deterministic 1 [0, 1, 2] [0, 1, 2] rfl⟩

/-- Witness for C9 at a concrete file whose root tag byte is 13. -/
theorem root_validation_witness :
    parseHeader bufRoot13 = .ok ⟨16, 16, [], []⟩ ∧
      readU8 bufRoot13 (FileData.mk 16 16 [] []).param_start = some 13 ∧
      disassemble 1 bufRoot13 = .err .missingRoot :=
  ⟨rfl, rfl,
    (root_validation bufRoot13 1 ⟨16, 16, [], []⟩ 13 rfl rfl).1 (by decide)⟩

/-- Witness for C6: a cached table is returned untouched on a second
request, and a decoding step preserves an existing cache entry. -/
theorem ref_table_memoization_witness :
    lookupRT (FileData.mk 0 0 [] [(3, [(1, 2)])]).ref_tables 3 = some [(1, 2)] ∧
      resolveRefTable [] 7 ⟨0, 0, [], [(3, [(1, 2)])]⟩ 5 3 =
        .ok ([(1, 2)], 7, ⟨0, 0, [], [(3, [(1, 2)])]⟩) ∧
      readParam 1 [1, 1] 0 ⟨0, 0, [], [(3, [(1, 2)])]⟩ =
        .ok (.bool true, 2, ⟨0, 0, [], [(3, [(1, 2)])]⟩) ∧
      lookupRT (FileData.mk 0 0 [] [(3, [(1, 2)])]).ref_tables 3 = some [(1, 2)] :=
  ⟨rfl, ref_table_memoization.1 [] 7 ⟨0, 0, [], [(3, [(1, 2)])]⟩ 5 3 [(1, 2)] rfl, rfl,
    ref_table_memoization.2 1 [1, 1] 0 ⟨0, 0, [], [(3, [(1, 2)])]⟩ (.bool true) 2
      ⟨0, 0, [], [(3, [(1, 2)])]⟩ rfl 3 [(1, 2)] rfl⟩

/-- Witness for C3 (amended): a cached hit with mismatched length raises no
error, and a first request reads exactly the declared number of pairs. -/
theorem ref_table_resolution_unverified_witness :
    lookupRT (FileData.mk 0 0 [] [(0, [(0, 9)])]).ref_tables 0 = some [(0, 9)] ∧
      ([((0 : Nat), (9 : Nat))] : List (Nat × Nat)).length ≠ 0 ∧
      resolveRefTable [] 7 ⟨0, 0, [], [(0, [(0, 9)])]⟩ 0 0 =
        .ok ([(0, 9)], 7, ⟨0, 0, [], [(0, [(0, 9)])]⟩) ∧
      lookupRT (FileData.mk 0 0 [] []).ref_tables 0 = none ∧
      resolveRefTable [1, 0, 0, 0, 9, 0, 0, 0, 0, 0, 0, 0, 11, 0, 0, 0] 99
          ⟨0, 0, [], []⟩ 2 0 =
        .ok ([(0, 11), (1, 9)], 16, ⟨0, 0, [], [(0, [(0, 11), (1, 9)])]⟩) ∧
      ([((0 : Nat), (11 : Nat)), (1, 9)] : List (Nat × Nat)).length = 2 ∧
      lookupRT (FileData.mk 0 0 [] [(0, [(0, 11), (1, 9)])]).ref_tables 0 =
        some [(0, 11), (1, 9)] :=
  ⟨rfl, by decide,
    ref_table_resolution_unverified.1 [] 7 ⟨0, 0, [], [(0, [(0, 9)])]⟩ 0 0
      [(0, 9)] rfl (by decide),
    rfl, rfl,
    (ref_table_resolution_unverified.2
      [1, 0, 0, 0, 9, 0, 0, 0, 0, 0, 0, 0, 11, 0, 0, 0] 99 ⟨0, 0, [], []⟩ 2 0
      [(0, 11), (1, 9)] 16 ⟨0, 0, [], [(0, [(0, 11), (1, 9)])]⟩ rfl rfl).1,
    (ref_table_resolution_unverified.2
      [1, 0, 0, 0, 9, 0, 0, 0, 0, 0, 0, 0, 11, 0, 0, 0] 99 ⟨0, 0, [], []⟩ 2 0
      [(0, 11), (1, 9)] 16 ⟨0, 0, [], [(0, [(0, 11), (1, 9)])]⟩ rfl rfl).2⟩

/-- Witness for C5 at a concrete one-element list. -/
theorem list_elements_preserve_offset_order_witness :
    readParam 2 bufOneList 0 ⟨0, 0, [], []⟩ =
        .ok (.list [.bool true], 11, ⟨0, 0, [], []⟩) ∧
      (∃ size offs, readU32 bufOneList (0 + 1) = some size ∧
        readU32s bufOneList (0 + 5) size = some offs ∧
        ([ParamKind.bool true]).length = offs.length ∧
        ∀ i (h1 : i < offs.length) (h2 : i < ([ParamKind.bool true]).length),
          ∃ fdi pi fdi',
            readParam 1 bufOneList (0 + offs.get ⟨i, h1⟩) fdi =
              .ok (([ParamKind.bool true]).get ⟨i, h2⟩, pi, fdi')) :=
  ⟨rfl, list_elements_preserve_offset_order 1 bufOneList 0 ⟨0, 0, [], []⟩
    [.bool true] 11 ⟨0, 0, [], []⟩ rfl⟩

/-- Witness for C4 at a concrete file whose on-disk reference table is not
pre-sorted. -/
theorem struct_members_sorted_by_hash_index_witness :
    SortedCache ⟨32, 48, [1, 2], []⟩ ∧
      readParam 3 bufUnsortedRefTable 48 ⟨32, 48, [1, 2], []⟩ =
        .ok (.strct [(1, .bool true), (2, .u8 7)], 59,
          ⟨32, 48, [1, 2], [(0, [(0, 11), (1, 9)])]⟩) ∧
      (∃ size refpos t, readU32 bufUnsortedRefTable (48 + 1) = some size ∧
        readU32 bufUnsortedRefTable (48 + 5) = some refpos ∧
        lookupRT (FileData.mk 32 48 [1, 2]
          [(0, [(0, 11), (1, 9)])]).ref_tables refpos = some t ∧
        List.Sorted PairLe t ∧
        ([((1 : Nat), ParamKind.bool true), (2, ParamKind.u8 7)]).map Prod.fst =
          t.map (fun e => (FileData.mk 32 48 [1, 2] []).hash_table.getD e.1 0)) :=
  ⟨sortedCache_of_nil rfl, rfl,
    struct_members_sorted_by_hash_index 3 bufUnsortedRefTable 48
      ⟨32, 48, [1, 2], []⟩ [(1, .bool true), (2, .u8 7)] 59
      ⟨32, 48, [1, 2], [(0, [(0, 11), (1, 9)])]⟩ (sortedCache_of_nil rfl) rfl⟩

/-- Witness for C8 (amended) at concrete string bytes. -/
theorem str_reads_raw_bytes_without_validation_witness :
    readStrLoop [65, 66, 0, 7] 0 = .ok ([65, 66], 3) ∧
      (([65, 66] : List Nat) =
          (([65, 66, 0, 7] : List Nat).drop 0).takeWhile (fun b => b ≠ 0) ∧
        3 = 0 + ([65, 66] : List Nat).length + 1 ∧
        (0 : Nat) ∉ ([65, 66] : List Nat)) ∧
      readU8 bufOneStr 0 = some 10 ∧
      readParam 1 bufOneStr 0 ⟨0, 0, [], []⟩ =
        .ok (.str [72], 7, ⟨0, 0, [], []⟩) ∧
      (∃ strpos s, readU32 bufOneStr (0 + 1) = some strpos ∧
        readStrLoop bufOneStr
          (((FileData.mk 0 0 [] []).ref_start + strpos) % 2 ^ 32) =
          .ok (s, 7) ∧
        ParamKind.str [72] = .str s ∧
        (⟨0, 0, [], []⟩ : FileData) = ⟨0, 0, [], []⟩) :=
  ⟨rfl, str_reads_raw_bytes_without_validation.1 [65, 66, 0, 7] 0 [65, 66] 3 rfl,
    rfl, rfl,
    str_reads_raw_bytes_without_validation.2 0 bufOneStr 0 ⟨0, 0, [], []⟩
      (.str [72]) 7 ⟨0, 0, [], []⟩ rfl rfl⟩

end Prc
